import Mathlib

/-!
# Verification of the SpotifyLibraryBuilder track-resolution pipeline

Shallow embedding of the core pipeline of the `spotify_library_builder`
package: the filename sanitizer and allocator (`utils.py`), the track
filter and per-track orchestration loop (`cli.py`), the YouTube match
resolver fallback plan (`youtube_client.py`), the derived search query
and `added_at` normalization (`spotify_client.py`), and the converter's
filename computation (`converter.py`).

Python strings are embedded as `List Char`.  Python `datetime` values are
embedded as a numeric instant together with an offset-awareness flag;
comparing a naive and an aware value is a `TypeError`, embedded as an
`Except` error.  Filesystem state is embedded as the finite set of paths
that currently exist.
-/

set_option autoImplicit false

namespace SpotifyLibraryBuilder

/-! ## Character and string helpers (embedding of Python `str` operations) -/

/-- Whitespace test used by the embedding of `str.strip`. -/
def isWS (c : Char) : Bool := c.isWhitespace

/-- Embedding of Python `str.strip()`: remove leading and trailing
whitespace. -/
def pyStrip (l : List Char) : List Char :=
  ((l.dropWhile isWS).reverse.dropWhile isWS).reverse

/-- Embedding of Python `str.join` with a one-character separator
(`' '.join(...)` and the hyphen join used by the spec-side slugifier). -/
def joinWith (sep : Char) : List (List Char) → List Char
  | [] => []
  | [a] => a
  | a :: b :: rest => a ++ sep :: joinWith sep (b :: rest)

/-- Embedding of Python `str.lower()` (faithful on ASCII, which is all the
code's case-insensitive comparison needs). -/
def pyLower (l : List Char) : List Char := l.map Char.toLower

/-! ## `utils.slugify` (utils.py lines 12-27) -/

/-- The character class of the regex `[^A-Za-z0-9._-]` in `utils.py`:
`isAllowed c` holds exactly when `c` is NOT matched by that regex,
i.e. `c` is an ASCII letter, ASCII digit, `'.'`, `'_'` or `'-'`. -/
def isAllowed (c : Char) : Bool :=
  c.isAlpha || c.isDigit || c == '.' || c == '_' || c == '-'

/-- Embedding of `utils.slugify`:
`value.strip().replace(" ", "-")`, then `re.sub("[^A-Za-z0-9._-]+", "", value)`,
then `value[:max_length]`.  Note `str.replace(" ", "-")` replaces every
single space character with a hyphen (a run of `k` spaces becomes `k`
hyphens), and the regex substitution with the empty string is a character
filter. -/
def slugify (value : List Char) (maxLength : Nat := 200) : List Char :=
  let v1 := pyStrip value
  let v2 := v1.map (fun c => if c = ' ' then '-' else c)
  (v2.filter isAllowed).take maxLength

/-- Split a string into maximal whitespace-free words (the semantics of
Python `str.split()` with no argument).  `acc` accumulates the current
word in reverse. -/
def wordsWSAux : List Char → List Char → List (List Char)
  | [], acc => if acc = [] then [] else [acc.reverse]
  | c :: cs, acc =>
    if isWS c then
      (if acc = [] then wordsWSAux cs [] else acc.reverse :: wordsWSAux cs [])
    else wordsWSAux cs (c :: acc)

/-- The whitespace-separated words of a string. -/
def wordsWS (l : List Char) : List (List Char) := wordsWSAux l []

/-- The sanitizer as the SPEC describes it (spec.md section 4.1): strip
leading/trailing whitespace, replace every internal RUN of whitespace
with a SINGLE hyphen, remove characters outside the allowed set, truncate
to 200.  Stated only to be compared with the source-derived `slugify`. -/
def slugifySpec (value : List Char) (maxLength : Nat := 200) : List Char :=
  ((joinWith '-' (wordsWS value)).filter isAllowed).take maxLength

/-! ## `utils.unique_path` (utils.py lines 36-52) -/

/-- Decimal digit characters of `n`, least significant first, with `fuel`
bounding the recursion depth (any `fuel ≥ n` yields the decimal digits). -/
def natCharsAux : Nat → Nat → List Char
  | 0, _ => []
  | _ + 1, 0 => []
  | fuel + 1, n + 1 =>
    Nat.digitChar ((n + 1) % 10) :: natCharsAux fuel ((n + 1) / 10)

/-- The decimal representation of `n` as characters (the embedding of the
Python f-string interpolation of the collision counter). -/
def natChars (n : Nat) : List Char := (natCharsAux n n).reverse

/-- Decode a decimal character string; left inverse of `natChars`, used to
show that distinct counters produce distinct candidate paths. -/
def charsToNat (l : List Char) : Nat :=
  l.foldl (fun a c => 10 * a + (c.toNat - 48)) 0

/-- The `n`-th candidate path tried by `unique_path`: candidate 0 is
`directory / f"{base_name}{extension}"`, and candidate `n ≥ 1` is
`directory / f"{base_name}-{n}{extension}"`. -/
def candidate (dir base ext : List Char) (n : Nat) : List Char :=
  if n = 0 then dir ++ '/' :: (base ++ ext)
  else dir ++ '/' :: (base ++ '-' :: (natChars n ++ ext))

/-- The `while candidate.exists()` loop of `unique_path`, with explicit
fuel: starting from counter `k`, return the first counter whose candidate
does not exist, or `k + fuel` if the fuel runs out.  The filesystem is
embedded as the finite set `ex` of existing paths. -/
def firstFreeAux (ex : Finset (List Char)) (c : Nat → List Char) : Nat → Nat → Nat
  | 0, k => k
  | fuel + 1, k => if c k ∈ ex then firstFreeAux ex c fuel (k + 1) else k

/-- Embedding of `utils.unique_path`: return the first candidate path that
does not exist.  `ex.card + 1` fuel always suffices because the candidate
paths are pairwise distinct while `ex` is finite.  The function only reads
the set of existing paths; it creates nothing. -/
def uniquePath (ex : Finset (List Char)) (dir base ext : List Char) : List Char :=
  candidate dir base ext
    (firstFreeAux ex (candidate dir base ext) (ex.card + 1) 0)

/-! ## `converter.convert_and_download` filename computation
(converter.py lines 44-48) -/

/-- Embedding of the Python expression `filename_base or "track"`
(`None` and the empty string are falsy). -/
def pyOrTrack : Option (List Char) → List Char
  | none => "track".toList
  | some s => if s = [] then "track".toList else s

/-- The base name computed by `convert_and_download`:
`utils.slugify(filename_base or "track")`. -/
def convertBase (filenameBase : Option (List Char)) : List Char :=
  slugify (pyOrTrack filenameBase)

/-- The output path reserved by `convert_and_download`:
`utils.unique_path(output_dir, base_name, ".mp3")`. -/
def convertPath (ex : Finset (List Char)) (dir : List Char)
    (filenameBase : Option (List Char)) : List Char :=
  uniquePath ex dir (convertBase filenameBase) ".mp3".toList

/-! ## Python `datetime` values and the `added_at` normalization
(spotify_client.py lines 23-35 and 88-99) -/

/-- Embedding of a Python `datetime`: a numeric instant plus the
offset-awareness flag.  For the fixed-width timestamps produced by the
code's parsing paths the concatenated decimal digits of
`YYYY-MM-DDTHH:MM:SS` are monotone in chronological order, so they serve
as the instant. -/
structure PyDateTime where
  value : Nat
  aware : Bool
  deriving DecidableEq, Repr

/-- Embedding of a playlist track (the `Track` dataclass of
`spotify_client.py`). -/
structure Track where
  title : List Char
  artists : List (List Char)
  added_at : PyDateTime
  deriving DecidableEq, Repr

/-- Embedding of `Track.search_query`:
`f"{self.title} {' '.join(self.artists)}".strip()`. -/
def searchQuery (t : Track) : List Char :=
  pyStrip (t.title ++ ' ' :: joinWith ' ' t.artists)

/-- Embedding of Python `datetime.__gt__` (`a > b`): comparing an
offset-naive and an offset-aware datetime raises `TypeError`, otherwise
the instants are compared. -/
def pyGt (a b : PyDateTime) : Except String Bool :=
  if a.aware != b.aware then
    .error "TypeError: cannot compare offset-naive and offset-aware datetimes"
  else .ok (decide (b.value < a.value))

/-- Format matcher: `'D'` in the format matches any ASCII digit, any other
format character matches itself. -/
def matchesFormat : List Char → List Char → Bool
  | [], [] => true
  | f :: fs, c :: cs =>
    (if f = 'D' then c.isDigit else f == c) && matchesFormat fs cs
  | _, _ => false

/-- The basic ISO-8601 timestamps accepted by the embedding of
`datetime.fromisoformat` (the shape the Spotify API produces). -/
def isoBasicValid (s : List Char) : Bool :=
  matchesFormat "DDDD-DD-DDTDD:DD:DD".toList s

/-- Numeric instant of a fixed-width timestamp string: the concatenated
decimal digits (monotone in chronological order for this fixed format). -/
def isoValue (s : List Char) : Nat :=
  charsToNat (s.filter Char.isDigit)

/-- Embedding of `datetime.fromisoformat` restricted to the shapes the
code feeds it: a basic `YYYY-MM-DDTHH:MM:SS` timestamp parses to an
offset-naive value, the same followed by `+00:00` parses to an
offset-aware value, anything else raises `ValueError` (here: `none`). -/
def fromisoformat (s : List Char) : Option PyDateTime :=
  if isoBasicValid s then some ⟨isoValue s, false⟩
  else if isoBasicValid (s.take 19) && s.drop 19 == "+00:00".toList then
    some ⟨isoValue (s.take 19), true⟩
  else none

/-- Embedding of Python `str.replace("Z", "+00:00")`. -/
def pyReplaceZ : List Char → List Char
  | [] => []
  | c :: cs =>
    if c = 'Z' then '+' :: '0' :: '0' :: ':' :: '0' :: '0' :: pyReplaceZ cs
    else c :: pyReplaceZ cs

/-- `datetime.fromtimestamp(0)`: the Unix epoch as an offset-NAIVE
datetime (the value is its UTC reading; only the awareness flag matters
to the theorems below). -/
def epochDT : PyDateTime := ⟨isoValue "1970-01-01T00:00:00".toList, false⟩

/-- Embedding of the `added_at` normalization of
`get_playlist_tracks` (spotify_client.py lines 88-99): a trailing-`Z`
timestamp is parsed after replacing `Z` by `+00:00`, any other non-empty
string is parsed directly, and a missing or unparseable timestamp
defaults to the epoch. -/
def parseAddedAt : Option (List Char) → PyDateTime
  | none => epochDT
  | some r =>
    if !r.isEmpty && r.getLast? == some 'Z' then
      (fromisoformat (pyReplaceZ r)).getD epochDT
    else if !r.isEmpty then (fromisoformat r).getD epochDT
    else epochDT

/-! ## The track filter of `build_library` (cli.py lines 54-79) -/

/-- First index whose element satisfies `p` (the embedding of
`next((i for i, t in enumerate(tracks) if ...), None)`). -/
def findIdxOpt {α : Type} (p : α → Bool) : List α → Option Nat
  | [] => none
  | x :: xs => if p x then some 0 else (findIdxOpt p xs).map (· + 1)

/-- The body of the song-name-threshold branch (cli.py lines 62-79):
find the first case-insensitive exact title match and keep the strict
suffix after it, or raise `RuntimeError` when no title matches. -/
def songFilterCore (tracks : List Track) (name : List Char) : Except String (List Track) :=
  match findIdxOpt (fun t => pyLower t.title == pyLower name) tracks with
  | some i => .ok (tracks.drop (i + 1))
  | none => .error "RuntimeError: song not found in playlist - cannot apply song-name threshold"

/-- The date-threshold list comprehension
`[t for t in tracks if t.added_at > date_added_threshold]`, evaluating the
comparisons left to right so that the first mixed-awareness comparison
raises. -/
def dateFilterE : List Track → PyDateTime → Except String (List Track)
  | [], _ => .ok []
  | t :: ts, T =>
    match pyGt t.added_at T with
    | .error e => .error e
    | .ok b =>
      match dateFilterE ts T with
      | .error e => .error e
      | .ok rest => .ok (if b then t :: rest else rest)

/-- The filtering stage of `build_library` (cli.py lines 54-79): the date
threshold is applied when present (a `datetime` is always truthy), then
the song-name threshold is applied when present AND non-empty (the empty
string is falsy, so `if song_name_threshold:` skips the branch). -/
def filterPhase (tracks : List Track) (dateTh : Option PyDateTime)
    (songTh : Option (List Char)) : Except String (List Track) :=
  match (match dateTh with
         | some T => dateFilterE tracks T
         | none => .ok tracks) with
  | .error e => .error e
  | .ok ts1 =>
    match songTh with
    | some name => if name = [] then .ok ts1 else songFilterCore ts1 name
    | none => .ok ts1

/-- Models the mutually exclusive argparse group declared in `_parse_args`
(cli.py lines 126-141): `argparse.add_mutually_exclusive_group` rejects a
command line supplying both threshold options with a usage error before
`build_library` runs. -/
def cliParseThresholds (dateTh : Option PyDateTime) (songTh : Option (List Char)) :
    Except String (Option PyDateTime × Option (List Char)) :=
  match dateTh, songTh with
  | some _, some _ =>
    .error "usage error: --date-added-threshold not allowed with --song-name-threshold"
  | d, s => .ok (d, s)

/-! ## The YouTube match resolver (youtube_client.py lines 31-80) -/

/-- One item of a YouTube search response; `videoId` embeds
`item["id"].get("videoId")`, which may be absent. -/
structure YTItem where
  videoId : Option (List Char)
  deriving DecidableEq, Repr

/-- Embedding of the inner `_attempt` helper: issue one search call
(`resp` is the stubbed search capability) and return
`items[0]["id"].get("videoId")`, or `None` when `items` is empty. -/
def ytAttempt (resp : List Char → Bool → List YTItem) (q : List Char) (hd : Bool) :
    Option (List Char) :=
  match resp q hd with
  | [] => none
  | item :: _ => item.videoId

/-- The result of one attempt is usable exactly when it produced a
truthy (non-`None`, non-empty) video id: the `if video_id:` test. -/
def usableB : Option (List Char) → Bool
  | none => false
  | some id => !id.isEmpty

/-- The ordered search plan of `search_first_video`. -/
def searchPlan (query : List Char) : List (List Char × Bool) :=
  [(query ++ " lyrics".toList, true),
   (query ++ " lyrics".toList, false),
   (query, true),
   (query, false)]

/-- The URL prefix prepended to a found video id. -/
def ytUrlPrefix : List Char := "https://www.youtube.com/watch?v=".toList

/-- The `for q, hd in search_plan` loop of `search_first_video`, returning
both the result and the ordered list of attempts actually issued. -/
def searchLoop (resp : List Char → Bool → List YTItem) :
    List (List Char × Bool) → Option (List Char) × List (List Char × Bool)
  | [] => (none, [])
  | (q, hd) :: rest =>
    match ytAttempt resp q hd with
    | some id =>
      if id.isEmpty then
        let r := searchLoop resp rest
        (r.1, (q, hd) :: r.2)
      else (some (ytUrlPrefix ++ id), [(q, hd)])
    | none =>
      let r := searchLoop resp rest
      (r.1, (q, hd) :: r.2)

/-- Embedding of `search_first_video`: result plus issued-attempt log. -/
def searchFirstVideoLog (resp : List Char → Bool → List YTItem) (query : List Char) :
    Option (List Char) × List (List Char × Bool) :=
  searchLoop resp (searchPlan query)

/-! ## The per-track orchestration loop of `build_library`
(cli.py lines 81-98) -/

/-- The outcome of one iteration of the per-track loop. -/
inductive TrackOutcome where
  | searchFailed (msg : String)
  | noMatch
  | downloaded (url : List Char) (base : List Char)
  | convertFailed (url : List Char) (base : List Char) (msg : String)
  deriving DecidableEq, Repr

/-- The base name of cli.py line 93:
`f"{track.title}-{track.artists[0]}" if track.artists else track.title`. -/
def pyBaseName (t : Track) : List Char :=
  match t.artists with
  | [] => t.title
  | a :: _ => t.title ++ '-' :: a

/-- One iteration of the per-track loop: a search error or a missing
match or a conversion error is caught, logged and turned into an outcome
for this track only. -/
def processTrack (search : List Char → Except String (Option (List Char)))
    (convert : List Char → List Char → Except String Unit) (t : Track) : TrackOutcome :=
  match search (searchQuery t) with
  | .error e => .searchFailed e
  | .ok none => .noMatch
  | .ok (some url) =>
    match convert url (pyBaseName t) with
    | .ok _ => .downloaded url (pyBaseName t)
    | .error e => .convertFailed url (pyBaseName t) e

/-- The full per-track loop: every filtered track is attempted exactly
once, in order, and no outcome aborts the loop. -/
def processTracks (search : List Char → Except String (Option (List Char)))
    (convert : List Char → List Char → Except String Unit) (tracks : List Track) :
    List TrackOutcome :=
  tracks.map (processTrack search convert)

/-- The base name recorded in an outcome, when the track got as far as a
conversion attempt. -/
def outcomeBase : TrackOutcome → Option (List Char)
  | .downloaded _ b => some b
  | .convertFailed _ b _ => some b
  | _ => none

/-- `build_library` after the fetch: the filter stage, then (only when
filtering succeeded) the per-track loop.  A filter-stage error aborts the
run before any track is processed. -/
def buildLibraryRun (search : List Char → Except String (Option (List Char)))
    (convert : List Char → List Char → Except String Unit) (tracks : List Track)
    (dateTh : Option PyDateTime) (songTh : Option (List Char)) :
    Except String (List TrackOutcome) :=
  (filterPhase tracks dateTh songTh).map (processTracks search convert)

/-! ## Helper lemmas about the string embedding -/

/-- Stripping absorbs a trailing space: the embedding of
`(title + " ").strip() == title.strip()`. -/
theorem pyStrip_append_space (l : List Char) : pyStrip (l ++ [' ']) = pyStrip l := by
  unfold pyStrip
  rw [List.dropWhile_append]
  by_cases h : List.dropWhile isWS l = []
  · rw [h]
    simp [List.dropWhile, isWS]
  · rw [if_neg (by simpa [List.isEmpty_iff] using h)]
    rw [List.reverse_append]
    simp only [List.reverse_cons, List.reverse_nil, List.nil_append, List.singleton_append]
    rw [List.dropWhile_cons]
    simp [isWS]

/-- A list whose first element fails `p` is untouched by `dropWhile`. -/
theorem dropWhile_eq_self_of_head (p : Char → Bool) (l : List Char) (c : Char)
    (hc : l.head? = some c) (hp : p c = false) : l.dropWhile p = l := by
  cases l with
  | nil => simp at hc
  | cons a as =>
    simp only [List.head?_cons, Option.some.injEq] at hc
    subst hc
    rw [List.dropWhile_cons, hp]
    simp

/-- A string whose two ends are not whitespace is already stripped. -/
theorem pyStrip_eq_self (l : List Char) (c d : Char) (hc : l.head? = some c)
    (hcw : isWS c = false) (hd : l.getLast? = some d) (hdw : isWS d = false) :
    pyStrip l = l := by
  unfold pyStrip
  rw [dropWhile_eq_self_of_head isWS l c hc hcw]
  rw [dropWhile_eq_self_of_head isWS l.reverse d (by rw [List.head?_reverse]; exact hd) hdw]
  exact List.reverse_reverse l

/-- Every character of a slug is in the allowed set and the slug respects
the length bound. -/
theorem slugify_mem_allowed (s : List Char) (c : Char) (hc : c ∈ slugify s) :
    isAllowed c = true :=
  List.of_mem_filter (List.mem_of_mem_take hc)

/-- If the stripped input has no allowed character and no space, the slug
is empty. -/
theorem slugify_eq_nil (s : List Char)
    (h : ∀ c ∈ pyStrip s, isAllowed c = false ∧ c ≠ ' ') : slugify s = [] := by
  unfold slugify
  simp only
  have hfil : ((pyStrip s).map (fun c => if c = ' ' then '-' else c)).filter isAllowed = [] := by
    rw [List.filter_eq_nil_iff]
    intro a ha
    obtain ⟨c, hcmem, hceq⟩ := List.mem_map.mp ha
    obtain ⟨hall, hsp⟩ := h c hcmem
    rw [if_neg hsp] at hceq
    subst hceq
    simp [hall]
  rw [hfil]
  rfl

/-! ## C1: the sanitizer -/

/-- C1 (counterexample): the claim says every internal RUN of whitespace
becomes a SINGLE hyphen, but `slugify` replaces each space separately:
on the input `"a  b"` (two internal spaces) the code produces `"a--b"`
while the claimed behavior (`slugifySpec`) produces `"a-b"`. -/
theorem slugify_whitespace_run_counterexample :
    slugify "a  b".toList = "a--b".toList ∧
    slugifySpec "a  b".toList = "a-b".toList ∧
    slugify "a  b".toList ≠ slugifySpec "a  b".toList :=
  ⟨by decide, by decide, by decide⟩

/-- C1 (amended): `slugify` strips leading/trailing whitespace, replaces
each internal space character with one hyphen (a run of `k` spaces yields
`k` hyphens), removes every character outside `{letters, digits, '.',
'_', '-'}` (including any remaining non-space whitespace), and truncates
to at most 200 characters; in particular the output contains only
characters from the allowed set and is at most 200 characters long. -/
theorem slugify_charset_invariant (s : List Char) :
    (slugify s).length ≤ 200 ∧ ∀ c ∈ slugify s, isAllowed c = true := by
  constructor
  · exact List.length_take_le 200 _
  · intro c hc
    exact slugify_mem_allowed s c hc

/-- C1 witness: the spec's own example input `"A/B: C?"`. -/
theorem slugify_charset_invariant_witness :
    ('-' ∈ slugify "A/B: C?".toList) ∧ isAllowed '-' = true :=
  ⟨by decide, (slugify_charset_invariant "A/B: C?".toList).2 '-' (by decide)⟩

/-! ## Decimal rendering of the collision counter -/

/-- Decoder matching `charsToNat` on un-reversed (least-significant-first)
digit lists. -/
theorem charsToNat_reverse (l : List Char) :
    charsToNat l.reverse = l.foldr (fun c a => 10 * a + (c.toNat - 48)) 0 := by
  unfold charsToNat
  rw [List.foldl_reverse]

/-- Decoding a digit character recovers the digit. -/
theorem digitChar_toNat (d : Nat) (h : d < 10) : (Nat.digitChar d).toNat - 48 = d := by
  interval_cases d <;> decide

/-- With enough fuel, decoding the digit characters of `n` recovers `n`. -/
theorem natCharsAux_decode : ∀ (fuel n : Nat), n ≤ fuel →
    (natCharsAux fuel n).foldr (fun c a => 10 * a + (c.toNat - 48)) 0 = n := by
  intro fuel
  induction fuel with
  | zero => intro n h; interval_cases n; rfl
  | succ f ih =>
    intro n h
    cases n with
    | zero => rfl
    | succ m =>
      have hdiv : (m + 1) / 10 ≤ f := by
        have h1 : (m + 1) / 10 < m + 1 := Nat.div_lt_self (Nat.succ_pos m) (by omega)
        omega
      simp only [natCharsAux, List.foldr_cons, ih _ hdiv]
      rw [digitChar_toNat _ (Nat.mod_lt _ (by omega))]
      omega

/-- `charsToNat` is a left inverse of `natChars`. -/
theorem charsToNat_natChars (n : Nat) : charsToNat (natChars n) = n := by
  unfold natChars
  rw [charsToNat_reverse]
  exact natCharsAux_decode n n (Nat.le_refl n)

/-- The decimal rendering is injective. -/
theorem natChars_injective : Function.Injective natChars := by
  intro a b h
  have := charsToNat_natChars a
  rw [h, charsToNat_natChars] at this
  exact this.symm

/-- A positive counter has a non-empty decimal rendering. -/
theorem natChars_ne_nil (n : Nat) (h : 0 < n) : natChars n ≠ [] := by
  cases n with
  | zero => omega
  | succ m =>
    unfold natChars natCharsAux
    simp

/-! ## The candidate sequence of `unique_path` -/

/-- Distinct counters give distinct candidate paths. -/
theorem candidate_injective (dir base ext : List Char) :
    Function.Injective (candidate dir base ext) := by
  intro a b h
  unfold candidate at h
  by_cases ha : a = 0 <;> by_cases hb : b = 0
  · omega
  · rw [if_pos ha, if_neg hb] at h
    have h2 := List.append_cancel_left h
    have h3 : base ++ ext = base ++ '-' :: (natChars b ++ ext) := by
      injection h2
    have h4 := List.append_cancel_left h3
    have h5 := congrArg List.length h4
    simp [List.length_append] at h5
    have h6 := natChars_ne_nil b (by omega)
    have h7 : 0 < (natChars b).length := List.length_pos.mpr h6
    omega
  · rw [if_neg ha, if_pos hb] at h
    have h2 := List.append_cancel_left h
    have h3 : base ++ '-' :: (natChars a ++ ext) = base ++ ext := by
      injection h2
    have h4 := List.append_cancel_left h3
    have h5 := congrArg List.length h4
    simp [List.length_append] at h5
    have h6 := natChars_ne_nil a (by omega)
    have h7 : 0 < (natChars a).length := List.length_pos.mpr h6
    omega
  · rw [if_neg ha, if_neg hb] at h
    have h2 := List.append_cancel_left h
    have h3 : base ++ '-' :: (natChars a ++ ext) = base ++ '-' :: (natChars b ++ ext) := by
      injection h2
    have h4 := List.append_cancel_left h3
    have h5 : natChars a ++ ext = natChars b ++ ext := by
      injection h4
    exact natChars_injective (List.append_cancel_right h5)

/-- Pigeonhole: among the first `ex.card + 1` candidates some path is not
in the finite set of existing paths. -/
theorem exists_candidate_free (ex : Finset (List Char)) (dir base ext : List Char) :
    ∃ j, j < ex.card + 1 ∧ candidate dir base ext j ∉ ex := by
  by_contra hcon
  push_neg at hcon
  have hmaps : ∀ j ∈ Finset.range (ex.card + 1), candidate dir base ext j ∈ ex := by
    intro j hj
    exact hcon j (Finset.mem_range.mp hj)
  have hinj : Set.InjOn (candidate dir base ext) (Finset.range (ex.card + 1)) := by
    intro a _ b _ hab
    exact candidate_injective dir base ext hab
  have := Finset.card_le_card_of_injOn (candidate dir base ext) hmaps hinj
  rw [Finset.card_range] at this
  omega

/-- Correctness of the fueled existence-check loop: if some candidate at
offset below the fuel is free, the loop stops at the FIRST free counter at
or after `k`. -/
theorem firstFreeAux_spec (ex : Finset (List Char)) (c : Nat → List Char) :
    ∀ (fuel k : Nat), (∃ j, j < fuel ∧ c (k + j) ∉ ex) →
    c (firstFreeAux ex c fuel k) ∉ ex ∧ k ≤ firstFreeAux ex c fuel k ∧
      ∀ m, k ≤ m → m < firstFreeAux ex c fuel k → c m ∈ ex := by
  intro fuel
  induction fuel with
  | zero => intro k h; omega
  | succ f ih =>
    intro k h
    unfold firstFreeAux
    by_cases hk : c k ∈ ex
    · rw [if_pos hk]
      obtain ⟨j, hj, hfree⟩ := h
      have hj0 : j ≠ 0 := by
        intro h0
        subst h0
        simp at hfree
        exact hfree hk
      have hex : ∃ j, j < f ∧ c (k + 1 + j) ∉ ex := by
        refine ⟨j - 1, by omega, ?_⟩
        have : k + 1 + (j - 1) = k + j := by omega
        rw [this]
        exact hfree
      obtain ⟨h1, h2, h3⟩ := ih (k + 1) hex
      refine ⟨h1, by omega, ?_⟩
      intro m hm1 hm2
      by_cases hmk : m = k
      · subst hmk; exact hk
      · exact h3 m (by omega) hm2
    · rw [if_neg hk]
      exact ⟨hk, Nat.le_refl k, fun m h1 h2 => absurd (by omega : k ≤ m ∧ m < k) (by omega)⟩

/-- General characterization of `uniquePath`: the returned path is free,
and it is the FIRST free entry of the candidate sequence. -/
theorem uniquePath_spec (ex : Finset (List Char)) (dir base ext : List Char) :
    uniquePath ex dir base ext ∉ ex ∧
      ∀ n, candidate dir base ext n ∉ ex →
        (∀ m, m < n → candidate dir base ext m ∈ ex) →
        uniquePath ex dir base ext = candidate dir base ext n := by
  have hex : ∃ j, j < ex.card + 1 ∧ candidate dir base ext (0 + j) ∉ ex := by
    obtain ⟨j, h1, h2⟩ := exists_candidate_free ex dir base ext
    exact ⟨j, h1, by simpa using h2⟩
  obtain ⟨hfree, _, hmin⟩ :=
    firstFreeAux_spec ex (candidate dir base ext) (ex.card + 1) 0 hex
  refine ⟨hfree, ?_⟩
  intro n hn hbelow
  unfold uniquePath
  congr 1
  set r := firstFreeAux ex (candidate dir base ext) (ex.card + 1) 0 with hr
  rcases Nat.lt_trichotomy r n with h | h | h
  · exact absurd (hbelow r h) hfree
  · exact h
  · exact absurd (hmin n (Nat.zero_le n) h) hn

/-! ## C2: the filename allocator -/

/-- C2: `unique_path` returns `directory/baseName.extension` when that
path does not exist, and otherwise the first path of the sequence
`directory/baseName-1.extension`, `directory/baseName-2.extension`, ...
that does not exist; the returned path never exists at allocation time.
(The embedding is a pure function of the set of existing paths, so
determinism and the absence of file creation hold by construction.) -/
theorem unique_path_first_free (ex : Finset (List Char)) (dir base ext : List Char) :
    uniquePath ex dir base ext ∉ ex ∧
      (candidate dir base ext 0 ∉ ex → uniquePath ex dir base ext = candidate dir base ext 0) ∧
      ∀ n, candidate dir base ext n ∉ ex →
        (∀ m, m < n → candidate dir base ext m ∈ ex) →
        uniquePath ex dir base ext = candidate dir base ext n := by
  obtain ⟨h1, h2⟩ := uniquePath_spec ex dir base ext
  exact ⟨h1, fun h0 => h2 0 h0 (fun m hm => absurd hm (Nat.not_lt_zero m)), h2⟩

/-- C2 witness: with `song.mp3` and `song-1.mp3` both existing, the
allocator returns `song-2.mp3` (the spec's own collision example). -/
theorem unique_path_first_free_witness :
    (candidate "d".toList "song".toList ".mp3".toList 2 ∉
        ({"d/song.mp3".toList, "d/song-1.mp3".toList} : Finset (List Char)) ∧
      ∀ m, m < 2 → candidate "d".toList "song".toList ".mp3".toList m ∈
        ({"d/song.mp3".toList, "d/song-1.mp3".toList} : Finset (List Char))) ∧
    uniquePath {"d/song.mp3".toList, "d/song-1.mp3".toList} "d".toList "song".toList
        ".mp3".toList = candidate "d".toList "song".toList ".mp3".toList 2 :=
  ⟨⟨by decide, by decide⟩,
    (unique_path_first_free {"d/song.mp3".toList, "d/song-1.mp3".toList} "d".toList
        "song".toList ".mp3".toList).2.2 2 (by decide) (by decide)⟩

/-! ## Helper lemmas about the filter stage -/

/-- Under uniform offset-awareness the date-threshold comprehension
succeeds and keeps exactly the strictly later tracks. -/
theorem dateFilterE_ok (T : PyDateTime) : ∀ (tracks : List Track),
    (∀ t ∈ tracks, t.added_at.aware = T.aware) →
    dateFilterE tracks T =
      .ok (tracks.filter (fun t => decide (T.value < t.added_at.value))) := by
  intro tracks
  induction tracks with
  | nil => intro _; rfl
  | cons t ts ih =>
    intro h
    have ht : t.added_at.aware = T.aware := h t (by simp)
    have hts := ih (fun u hu => h u (by simp [hu]))
    have hgt : pyGt t.added_at T = .ok (decide (T.value < t.added_at.value)) := by
      simp [pyGt, ht]
    simp only [dateFilterE, hgt, hts, List.filter_cons]

/-- If no element satisfies `p`, no index is found. -/
theorem findIdxOpt_eq_none {α : Type} (p : α → Bool) : ∀ (l : List α),
    (∀ x ∈ l, p x = false) → findIdxOpt p l = none := by
  intro l
  induction l with
  | nil => intro _; rfl
  | cons x xs ih =>
    intro h
    have hx : p x = false := h x (by simp)
    simp only [findIdxOpt, hx]
    rw [ih (fun y hy => h y (by simp [hy]))]
    rfl

/-- If position `i` is the first position satisfying `p`, it is the index
found. -/
theorem findIdxOpt_eq_some {α : Type} (p : α → Bool) : ∀ (l : List α) (i : Nat)
    (hi : i < l.length), p (l.get ⟨i, hi⟩) = true →
    (∀ j (hj : j < l.length), j < i → p (l.get ⟨j, hj⟩) = false) →
    findIdxOpt p l = some i := by
  intro l
  induction l with
  | nil => intro i hi; simp at hi
  | cons x xs ih =>
    intro i hi hp hfirst
    cases i with
    | zero =>
      have hx : p x = true := hp
      simp [findIdxOpt, hx]
    | succ m =>
      have hx : p x = false := hfirst 0 (by simp) (Nat.succ_pos m)
      have hm : m < xs.length := by simpa using hi
      have hp2 : p (xs.get ⟨m, hm⟩) = true := hp
      have hf2 : ∀ j (hj : j < xs.length), j < m → p (xs.get ⟨j, hj⟩) = false := by
        intro j hj hjm
        exact hfirst (j + 1) (by simpa using Nat.succ_lt_succ hj) (Nat.succ_lt_succ hjm)
      simp only [findIdxOpt, hx]
      rw [ih m hm hp2 hf2]
      rfl

/-- With no date threshold and a non-empty song name, the filter stage is
the song-name branch. -/
theorem filterPhase_none_some (tracks : List Track) (name : List Char)
    (hname : name ≠ []) :
    filterPhase tracks none (some name) = songFilterCore tracks name := by
  simp [filterPhase, hname]

/-! ## C3: mutual exclusion of the two thresholds -/

/-- C3 (counterexample): invoking the pipeline's filter stage with BOTH a
date threshold and a song-name threshold raises no usage error; both
filters are applied in sequence (here the date filter keeps `A` and `C`,
then the song filter drops everything through `A`). -/
theorem filterPhase_both_thresholds_applied :
    filterPhase
        [Track.mk "A".toList [] ⟨5, false⟩, Track.mk "B".toList [] ⟨1, false⟩,
          Track.mk "C".toList [] ⟨5, false⟩]
        (some ⟨3, false⟩) (some "a".toList) =
      .ok [Track.mk "C".toList [] ⟨5, false⟩] ∧
    ∀ e, Except.error e ≠
      filterPhase
        [Track.mk "A".toList [] ⟨5, false⟩, Track.mk "B".toList [] ⟨1, false⟩,
          Track.mk "C".toList [] ⟨5, false⟩]
        (some ⟨3, false⟩) (some "a".toList) :=
  ⟨rfl, fun _ h => Except.noConfusion (h.trans rfl)⟩

/-- C3 (amended): the two thresholds are mutually exclusive only at the
command-line boundary, where the argparse mutually-exclusive group rejects
supplying both with a usage error; `build_library` itself performs no such
check and, when invoked with both thresholds, applies the date filter and
then the song-name filter in sequence. -/
theorem threshold_mutual_exclusion_cli_only (d T : PyDateTime) (s name : List Char)
    (tracks : List Track) :
    (∃ e, cliParseThresholds (some d) (some s) = .error e) ∧
    ((∀ t ∈ tracks, t.added_at.aware = T.aware) →
      filterPhase tracks (some T) (some name) =
        filterPhase (tracks.filter (fun t => decide (T.value < t.added_at.value)))
          none (some name)) := by
  refine ⟨⟨_, rfl⟩, ?_⟩
  intro h
  simp [filterPhase, dateFilterE_ok T tracks h]

/-- C3 witness: a concrete run where both thresholds are supplied and the
result is the song filter applied to the date-filtered list. -/
theorem threshold_mutual_exclusion_cli_only_witness :
    (∀ t ∈ [Track.mk "A".toList [] ⟨5, false⟩, Track.mk "B".toList [] ⟨1, false⟩,
          Track.mk "C".toList [] ⟨5, false⟩],
        t.added_at.aware = (PyDateTime.mk 3 false).aware) ∧
    filterPhase
        [Track.mk "A".toList [] ⟨5, false⟩, Track.mk "B".toList [] ⟨1, false⟩,
          Track.mk "C".toList [] ⟨5, false⟩]
        (some (PyDateTime.mk 3 false)) (some "a".toList) =
      filterPhase
        ([Track.mk "A".toList [] ⟨5, false⟩, Track.mk "B".toList [] ⟨1, false⟩,
            Track.mk "C".toList [] ⟨5, false⟩].filter
          (fun t => decide ((PyDateTime.mk 3 false).value < t.added_at.value)))
        none (some "a".toList) :=
  ⟨by decide,
    (threshold_mutual_exclusion_cli_only ⟨0, false⟩ ⟨3, false⟩ "x".toList "a".toList
        [Track.mk "A".toList [] ⟨5, false⟩, Track.mk "B".toList [] ⟨1, false⟩,
          Track.mk "C".toList [] ⟨5, false⟩]).2 (by decide)⟩

/-! ## C4: the title-threshold filter -/

/-- C4 (counterexample): with an EMPTY song-name threshold (a supplied but
falsy name) and a playlist containing no matching title, the claim demands
a "reference track not found" error, but the code's truthiness test
`if song_name_threshold:` skips the branch entirely and passes every track
through. -/
theorem song_filter_empty_name_passthrough :
    (∀ t ∈ [Track.mk "A".toList [] ⟨0, false⟩],
        pyLower t.title ≠ pyLower ([] : List Char)) ∧
    filterPhase [Track.mk "A".toList [] ⟨0, false⟩] none (some []) =
      .ok [Track.mk "A".toList [] ⟨0, false⟩] :=
  ⟨by decide, rfl⟩

/-- C4 (amended): for every NON-EMPTY title-threshold name: if some
track's title equals the name case-insensitively (exact match), the filter
returns exactly the tracks strictly after the first such index, in
original order; if no track's title matches, the filter fails with the
"song not found" error.  (An empty name is falsy in Python and disables
the filter instead.) -/
theorem song_filter_suffix_after_match (tracks : List Track) (name : List Char)
    (hname : name ≠ []) :
    (∀ i (hi : i < tracks.length),
       pyLower (tracks.get ⟨i, hi⟩).title = pyLower name →
       (∀ j (hj : j < tracks.length), j < i →
          pyLower (tracks.get ⟨j, hj⟩).title ≠ pyLower name) →
       filterPhase tracks none (some name) = .ok (tracks.drop (i + 1))) ∧
    ((∀ t ∈ tracks, pyLower t.title ≠ pyLower name) →
       ∃ e, filterPhase tracks none (some name) = .error e) := by
  constructor
  · intro i hi hp hfirst
    rw [filterPhase_none_some tracks name hname]
    unfold songFilterCore
    rw [findIdxOpt_eq_some (fun t => pyLower t.title == pyLower name) tracks i hi
      (by simpa [beq_iff_eq] using hp)
      (fun j hj hji => by simpa [beq_eq_false_iff_ne] using hfirst j hj hji)]
  · intro hnone
    rw [filterPhase_none_some tracks name hname]
    unfold songFilterCore
    rw [findIdxOpt_eq_none (fun t => pyLower t.title == pyLower name) tracks
      (fun t ht => by simpa [beq_eq_false_iff_ne] using hnone t ht)]
    exact ⟨_, rfl⟩

/-- C4 witness: the spec's example: titles `A,B,C,D`, threshold `"b"`
(case-insensitive), result `C,D`. -/
theorem song_filter_suffix_after_match_witness :
    ("b".toList ≠ ([] : List Char)) ∧
    filterPhase
        [Track.mk "A".toList [] ⟨0, false⟩, Track.mk "B".toList [] ⟨1, false⟩,
          Track.mk "C".toList [] ⟨2, false⟩, Track.mk "D".toList [] ⟨3, false⟩]
        none (some "b".toList) =
      .ok ([Track.mk "A".toList [] ⟨0, false⟩, Track.mk "B".toList [] ⟨1, false⟩,
            Track.mk "C".toList [] ⟨2, false⟩,
            Track.mk "D".toList [] ⟨3, false⟩].drop 2) :=
  ⟨by decide,
    (song_filter_suffix_after_match
        [Track.mk "A".toList [] ⟨0, false⟩, Track.mk "B".toList [] ⟨1, false⟩,
          Track.mk "C".toList [] ⟨2, false⟩, Track.mk "D".toList [] ⟨3, false⟩]
        "b".toList (by decide)).1 1 (by decide) (by decide) (by decide)⟩

/-! ## C5: the time-threshold filter -/

/-- C5: with a uniform awareness flag (the comparable case), the
time-threshold filter keeps exactly the tracks whose `added_at` is
STRICTLY greater than the threshold (a track equal to the threshold is
excluded), and the kept tracks form a sublist of the input, preserving
relative order. -/
theorem date_filter_strictly_greater (tracks : List Track) (T : PyDateTime)
    (h : ∀ t ∈ tracks, t.added_at.aware = T.aware) :
    filterPhase tracks (some T) none =
      .ok (tracks.filter (fun t => decide (T.value < t.added_at.value))) ∧
    (tracks.filter (fun t => decide (T.value < t.added_at.value))).Sublist tracks ∧
    ∀ t ∈ tracks, t.added_at.value = T.value →
      t ∉ tracks.filter (fun t => decide (T.value < t.added_at.value)) := by
  refine ⟨?_, List.filter_sublist tracks, ?_⟩
  · simp [filterPhase, dateFilterE_ok T tracks h]
  · intro t _ hveq hmem
    have hlt := List.of_mem_filter hmem
    simp [hveq] at hlt

/-- C5 witness: the spec's example: `added_at` values `t0 < t1 < t2` and
threshold `t1` keep only the `t2` track. -/
theorem date_filter_strictly_greater_witness :
    (∀ t ∈ [Track.mk "s0".toList [] ⟨0, false⟩, Track.mk "s1".toList [] ⟨1, false⟩,
          Track.mk "s2".toList [] ⟨2, false⟩],
        t.added_at.aware = (PyDateTime.mk 1 false).aware) ∧
    filterPhase
        [Track.mk "s0".toList [] ⟨0, false⟩, Track.mk "s1".toList [] ⟨1, false⟩,
          Track.mk "s2".toList [] ⟨2, false⟩]
        (some (PyDateTime.mk 1 false)) none =
      .ok [Track.mk "s2".toList [] ⟨2, false⟩] :=
  ⟨by decide,
    ((date_filter_strictly_greater
        [Track.mk "s0".toList [] ⟨0, false⟩, Track.mk "s1".toList [] ⟨1, false⟩,
          Track.mk "s2".toList [] ⟨2, false⟩]
        (PyDateTime.mk 1 false) (by decide)).1).trans
      (congrArg Except.ok (by decide))⟩

/-! ## Helper lemmas about the search loop -/

/-- The attempts actually issued form an initial segment of the plan. -/
theorem searchLoop_log_initial (resp : List Char → Bool → List YTItem) :
    ∀ plan, (searchLoop resp plan).2 <+: plan := by
  intro plan
  induction plan with
  | nil => simp [searchLoop]
  | cons p rest ih =>
    obtain ⟨q, hd⟩ := p
    cases hatt : ytAttempt resp q hd with
    | none =>
      simp only [searchLoop, hatt]
      exact (List.prefix_cons_inj (q, hd)).mpr ih
    | some id =>
      by_cases hid : id.isEmpty
      · simp only [searchLoop, hatt, if_pos hid]
        exact (List.prefix_cons_inj (q, hd)).mpr ih
      · simp only [searchLoop, hatt, if_neg hid]
        exact ⟨rest, rfl⟩

/-- When no attempt yields a truthy video id, every attempt is issued and
the result is `None`. -/
theorem searchLoop_all_fail (resp : List Char → Bool → List YTItem) :
    ∀ plan, (∀ p ∈ plan, usableB (ytAttempt resp p.1 p.2) = false) →
    searchLoop resp plan = (none, plan) := by
  intro plan
  induction plan with
  | nil => intro _; rfl
  | cons p rest ih =>
    intro h
    obtain ⟨q, hd⟩ := p
    have h0 : usableB (ytAttempt resp q hd) = false := h (q, hd) (by simp)
    have hrest := ih (fun u hu => h u (by simp [hu]))
    cases hatt : ytAttempt resp q hd with
    | none =>
      simp only [searchLoop, hatt, hrest]
    | some id =>
      rw [hatt] at h0
      have hid : id.isEmpty = true := by
        simpa [usableB] using h0
      simp only [searchLoop, hatt, if_pos hid, hrest]

/-- When position `i` is the first attempt yielding a truthy video id, the
loop stops there: it issues exactly the attempts up to and including `i`
and returns the URL built from that id. -/
theorem searchLoop_first_usable (resp : List Char → Bool → List YTItem) :
    ∀ (plan : List (List Char × Bool)) (i : Nat) (hi : i < plan.length) (id : List Char),
    ytAttempt resp (plan.get ⟨i, hi⟩).1 (plan.get ⟨i, hi⟩).2 = some id → id ≠ [] →
    (∀ j (hj : j < plan.length), j < i →
       usableB (ytAttempt resp (plan.get ⟨j, hj⟩).1 (plan.get ⟨j, hj⟩).2) = false) →
    searchLoop resp plan = (some (ytUrlPrefix ++ id), plan.take (i + 1)) := by
  intro plan
  induction plan with
  | nil => intro i hi; simp at hi
  | cons p rest ih =>
    intro i hi id hatt hid hfirst
    obtain ⟨q, hd⟩ := p
    cases i with
    | zero =>
      have hatt0 : ytAttempt resp q hd = some id := hatt
      have hne : id.isEmpty = false := by
        simpa [List.isEmpty_iff] using hid
      simp only [searchLoop, hatt0, hne, Bool.false_eq_true, if_false, List.take_succ_cons,
        List.take_zero]
    | succ m =>
      have h0 : usableB (ytAttempt resp q hd) = false := hfirst 0 (by simp) (Nat.succ_pos m)
      have hm : m < rest.length := by simpa using hi
      have hatt2 : ytAttempt resp (rest.get ⟨m, hm⟩).1 (rest.get ⟨m, hm⟩).2 = some id := hatt
      have hf2 : ∀ j (hj : j < rest.length), j < m →
          usableB (ytAttempt resp (rest.get ⟨j, hj⟩).1 (rest.get ⟨j, hj⟩).2) = false := by
        intro j hj hjm
        exact hfirst (j + 1) (by simpa using Nat.succ_lt_succ hj) (Nat.succ_lt_succ hjm)
      have hrest := ih m hm id hatt2 hid hf2
      cases hatt0 : ytAttempt resp q hd with
      | none =>
        simp only [searchLoop, hatt0, hrest, List.take_succ_cons]
      | some id0 =>
        rw [hatt0] at h0
        have hid0 : id0.isEmpty = true := by
          simpa [usableB] using h0
        simp only [searchLoop, hatt0, if_pos hid0, hrest, List.take_succ_cons]

/-! ## C6: the match resolver -/

/-- C6 (counterexample): the first attempt yields one candidate, but the
candidate carries no video id (`items[0]["id"].get("videoId")` is `None`),
so the resolver does NOT return that attempt's result: it issues the
second attempt and returns its id — the claim's "first attempt that
yields at least one candidate, without issuing any later attempt" fails. -/
theorem search_resolver_skips_idless_candidate :
    let resp : List Char → Bool → List YTItem := fun s hd =>
      if s == "q".toList ++ " lyrics".toList && hd then [⟨none⟩]
      else if s == "q".toList ++ " lyrics".toList && !hd then [⟨some "abc".toList⟩]
      else []
    resp ("q".toList ++ " lyrics".toList) true ≠ [] ∧
      (searchFirstVideoLog resp "q".toList).2 =
        [("q".toList ++ " lyrics".toList, true), ("q".toList ++ " lyrics".toList, false)] ∧
      (searchFirstVideoLog resp "q".toList).1 = some (ytUrlPrefix ++ "abc".toList) := by
  refine ⟨by decide, by decide, by decide⟩

/-- C6 (amended): the resolver executes at most four attempts, in exactly
the order (query+" lyrics", HD), (query+" lyrics", no HD), (query, HD),
(query, no HD); it returns the URL of the first attempt that yields a
candidate with a truthy (present, non-empty) video id, issuing no later
attempt; attempts yielding no items — or an item without a usable id —
are passed over; if no attempt yields a usable id it returns `None`
(no match, not an error) after issuing all four attempts. -/
theorem search_resolver_fallback_order (resp : List Char → Bool → List YTItem)
    (query : List Char) :
    (searchPlan query).length = 4 ∧
    (searchFirstVideoLog resp query).2 <+: searchPlan query ∧
    (∀ i (hi : i < (searchPlan query).length) (id : List Char),
       ytAttempt resp ((searchPlan query).get ⟨i, hi⟩).1
           ((searchPlan query).get ⟨i, hi⟩).2 = some id →
       id ≠ [] →
       (∀ j (hj : j < (searchPlan query).length), j < i →
          usableB (ytAttempt resp ((searchPlan query).get ⟨j, hj⟩).1
            ((searchPlan query).get ⟨j, hj⟩).2) = false) →
       searchFirstVideoLog resp query =
         (some (ytUrlPrefix ++ id), (searchPlan query).take (i + 1))) ∧
    ((∀ p ∈ searchPlan query, usableB (ytAttempt resp p.1 p.2) = false) →
       searchFirstVideoLog resp query = (none, searchPlan query)) :=
  ⟨rfl, searchLoop_log_initial resp (searchPlan query),
    fun i hi id h1 h2 h3 => searchLoop_first_usable resp (searchPlan query) i hi id h1 h2 h3,
    fun h => searchLoop_all_fail resp (searchPlan query) h⟩

/-- C6 witness: the spec's example: only the third attempt (original
query, HD) yields a result; the resolver returns it and never issues the
fourth attempt (only three attempts are logged). -/
theorem search_resolver_fallback_order_witness :
    (ytAttempt
        (fun s hd => if s == "q".toList && hd then [⟨some "abc".toList⟩] else [])
        ((searchPlan "q".toList).get ⟨2, by decide⟩).1
        ((searchPlan "q".toList).get ⟨2, by decide⟩).2 = some "abc".toList) ∧
    searchFirstVideoLog
        (fun s hd => if s == "q".toList && hd then [⟨some "abc".toList⟩] else [])
        "q".toList =
      (some (ytUrlPrefix ++ "abc".toList), (searchPlan "q".toList).take 3) :=
  ⟨by decide,
    (search_resolver_fallback_order
        (fun s hd => if s == "q".toList && hd then [⟨some "abc".toList⟩] else [])
        "q".toList).2.2.1 2 (by decide) "abc".toList (by decide) (by decide) (by decide)⟩

/-! ## Helper lemmas about the derived search query -/

/-- The last character of a space-join is the last character of the last
joined part, provided that part is non-empty. -/
theorem joinWith_getLast (sep : Char) : ∀ (as : List (List Char)) (la : List Char),
    as.getLast? = some la → la ≠ [] → (joinWith sep as).getLast? = la.getLast? := by
  intro as
  induction as with
  | nil => intro la h; simp at h
  | cons a rest ih =>
    intro la h hla
    cases rest with
    | nil =>
      have : a = la := by simpa using h
      subst this
      rfl
    | cons b rest2 =>
      have h2 : (b :: rest2).getLast? = some la := by
        simpa [List.getLast?_cons_cons] using h
      have hj := ih la h2 hla
      have hne : joinWith sep (b :: rest2) ≠ [] := by
        intro h0
        rw [h0] at hj
        simp only [List.getLast?_nil] at hj
        rw [List.getLast?_eq_none_iff.mp hj.symm] at hla
        exact hla rfl
      rw [show joinWith sep (a :: b :: rest2) = a ++ sep :: joinWith sep (b :: rest2) from rfl]
      rw [List.getLast?_append_of_ne_nil a (by simp)]
      rw [show sep :: joinWith sep (b :: rest2) = [sep] ++ joinWith sep (b :: rest2) from rfl]
      rw [List.getLast?_append_of_ne_nil [sep] hne]
      exact hj

/-! ## C7: the derived search query -/

/-- C7 (counterexample): for the track with title `" A"` (leading space)
and artists `["B"]`, the code produces the TRIMMED `"A B"`, so the claimed
formula "title + space + space-joined artist names" (which would give
`" A B"`) does not hold. -/
theorem search_query_not_untrimmed_concat :
    searchQuery (Track.mk " A".toList ["B".toList] ⟨0, false⟩) = "A B".toList ∧
    searchQuery (Track.mk " A".toList ["B".toList] ⟨0, false⟩) ≠
      (Track.mk " A".toList ["B".toList] (⟨0, false⟩ : PyDateTime)).title ++
        ' ' :: joinWith ' ' (Track.mk " A".toList ["B".toList]
          (⟨0, false⟩ : PyDateTime)).artists :=
  ⟨by decide, by decide⟩

/-- C7 (amended): `searchQuery` is the TRIM of (title + space +
space-joined artist names).  With no artists it equals the trimmed title
alone; with artists it equals the untrimmed concatenation exactly when
the title starts with a non-whitespace character and the last artist name
ends with a non-whitespace character. -/
theorem search_query_trimmed (t : Track) :
    (t.artists = [] → searchQuery t = pyStrip t.title) ∧
    searchQuery t = pyStrip (t.title ++ ' ' :: joinWith ' ' t.artists) ∧
    (∀ c la lc, t.title.head? = some c → isWS c = false →
       t.artists.getLast? = some la → la.getLast? = some lc → isWS lc = false →
       searchQuery t = t.title ++ ' ' :: joinWith ' ' t.artists) := by
  refine ⟨?_, rfl, ?_⟩
  · intro h
    unfold searchQuery
    rw [h]
    exact pyStrip_append_space t.title
  · intro c la lc hc hcw hla hlc hlcw
    unfold searchQuery
    apply pyStrip_eq_self _ c lc
    · have htne : t.title ≠ [] := by
        intro h0
        rw [h0] at hc
        simp at hc
      rw [List.head?_append_of_ne_nil _ htne]
      exact hc
    · exact hcw
    · have hlane : la ≠ [] := by
        intro h0
        rw [h0] at hlc
        simp at hlc
      have hj := joinWith_getLast ' ' t.artists la hla hlane
      have hjne : joinWith ' ' t.artists ≠ [] := by
        intro h0
        rw [h0] at hj
        simp only [List.getLast?_nil] at hj
        rw [hlc] at hj
        exact Option.noConfusion hj
      rw [show t.title ++ ' ' :: joinWith ' ' t.artists =
            t.title ++ ([' '] ++ joinWith ' ' t.artists) from rfl]
      rw [List.getLast?_append_of_ne_nil _
        (List.append_ne_nil_of_right_ne_nil [' '] hjne)]
      rw [List.getLast?_append_of_ne_nil [' '] hjne]
      rw [hj]
      exact hlc
    · exact hlcw

/-- C7 witness: a well-trimmed track where the exact concatenation form
holds. -/
theorem search_query_trimmed_witness :
    ("A".toList.head? = some 'A' ∧ (["B".toList] : List (List Char)).getLast? =
        some "B".toList) ∧
    searchQuery (Track.mk "A".toList ["B".toList] ⟨0, false⟩) =
      "A".toList ++ ' ' :: joinWith ' ' ["B".toList] :=
  ⟨⟨rfl, rfl⟩,
    (search_query_trimmed (Track.mk "A".toList ["B".toList] ⟨0, false⟩)).2.2
      'A' "B".toList 'B' (by decide) (by decide) (by decide) (by decide) (by decide)⟩

/-! ## C8: the per-track orchestration loop -/

/-- C8: once the filter stage succeeds, the run completes with exactly one
outcome per filtered track (every per-track failure — search error, no
results, or fetch/encode error — becomes an outcome and affects only its
own track, with the loop continuing on the rest); on a resolved match the
output base name is `title ++ "-" ++ firstArtist` when at least one artist
exists, and just `title` otherwise. -/
theorem orchestrator_per_track (search : List Char → Except String (Option (List Char)))
    (convert : List Char → List Char → Except String Unit) (tracks : List Track)
    (dateTh : Option PyDateTime) (songTh : Option (List Char)) (fs : List Track)
    (h : filterPhase tracks dateTh songTh = .ok fs) :
    buildLibraryRun search convert tracks dateTh songTh =
      .ok (processTracks search convert fs) ∧
    (processTracks search convert fs).length = fs.length ∧
    (∀ pre t post, processTracks search convert (pre ++ t :: post) =
       processTracks search convert pre ++ processTrack search convert t ::
         processTracks search convert post) ∧
    (∀ t url, search (searchQuery t) = .ok (some url) →
       (t.artists = [] → outcomeBase (processTrack search convert t) = some t.title) ∧
       (∀ a as, t.artists = a :: as →
          outcomeBase (processTrack search convert t) = some (t.title ++ '-' :: a))) := by
  refine ⟨?_, ?_, ?_, ?_⟩
  · unfold buildLibraryRun
    rw [h]
    rfl
  · simp [processTracks]
  · intro pre t post
    simp [processTracks]
  · intro t url hurl
    have key : outcomeBase (processTrack search convert t) = some (pyBaseName t) := by
      unfold processTrack
      rw [hurl]
      show outcomeBase
          (match convert url (pyBaseName t) with
           | .ok _ => TrackOutcome.downloaded url (pyBaseName t)
           | .error e => TrackOutcome.convertFailed url (pyBaseName t) e) =
        some (pyBaseName t)
      cases convert url (pyBaseName t) <;> rfl
    constructor
    · intro h0
      rw [key]
      simp [pyBaseName, h0]
    · intro a as h0
      rw [key]
      simp [pyBaseName, h0]

/-- C8 witness: a one-track run with a successful search and conversion. -/
theorem orchestrator_per_track_witness :
    filterPhase [Track.mk "A".toList ["B".toList] ⟨0, false⟩] none none =
      .ok [Track.mk "A".toList ["B".toList] ⟨0, false⟩] ∧
    (processTracks (fun _ => Except.ok (some "u".toList)) (fun _ _ => Except.ok ())
        [Track.mk "A".toList ["B".toList] ⟨0, false⟩]).length =
      [Track.mk "A".toList ["B".toList] ⟨0, false⟩].length :=
  ⟨rfl,
    (orchestrator_per_track (fun _ => Except.ok (some "u".toList))
        (fun _ _ => Except.ok ()) [Track.mk "A".toList ["B".toList] ⟨0, false⟩] none none
        [Track.mk "A".toList ["B".toList] ⟨0, false⟩] rfl).2.1⟩

/-! ## Helper lemmas about `added_at` parsing and mixed-awareness
comparisons -/

/-- A digit character is never the UTC designator. -/
theorem digit_ne_Z (c : Char) (h : c.isDigit = true) : c ≠ 'Z' := by
  intro h0
  subst h0
  exact absurd h (by decide)

/-- A string matching a format has the format's length. -/
theorem matchesFormat_length : ∀ (f s : List Char),
    matchesFormat f s = true → s.length = f.length := by
  intro f
  induction f with
  | nil =>
    intro s h
    cases s with
    | nil => rfl
    | cons c cs => simp [matchesFormat] at h
  | cons fc fcs ih =>
    intro s h
    cases s with
    | nil => simp [matchesFormat] at h
    | cons c cs =>
      simp only [matchesFormat, Bool.and_eq_true] at h
      simp [ih cs h.2]

/-- A string matching a `Z`-free format contains no `Z`. -/
theorem matchesFormat_no_Z : ∀ (f s : List Char), matchesFormat f s = true →
    (∀ fc ∈ f, fc ≠ 'Z') → ∀ c ∈ s, c ≠ 'Z' := by
  intro f
  induction f with
  | nil =>
    intro s h _ c hc
    cases s with
    | nil => simp at hc
    | cons a as => simp [matchesFormat] at h
  | cons fc fcs ih =>
    intro s h hf c hc
    cases s with
    | nil => simp at hc
    | cons a as =>
      simp only [matchesFormat, Bool.and_eq_true] at h
      rcases List.mem_cons.mp hc with rfl | hmem
      · by_cases hd : fc = 'D'
        · rw [if_pos hd] at h
          exact digit_ne_Z c h.1
        · rw [if_neg hd] at h
          have hfc : fc = c := beq_iff_eq.mp h.1
          rw [← hfc]
          exact hf fc (by simp)
      · exact ih as h.2 (fun x hx => hf x (by simp [hx])) c hmem

/-- Replacing `Z` in a `Z`-free string is the identity. -/
theorem pyReplaceZ_no_Z : ∀ (l : List Char), (∀ c ∈ l, c ≠ 'Z') → pyReplaceZ l = l := by
  intro l
  induction l with
  | nil => intro _; rfl
  | cons c cs ih =>
    intro h
    unfold pyReplaceZ
    rw [if_neg (h c (by simp))]
    rw [ih (fun x hx => h x (by simp [hx]))]

/-- The `Z`-replacement distributes over append. -/
theorem pyReplaceZ_append : ∀ (l m : List Char),
    pyReplaceZ (l ++ m) = pyReplaceZ l ++ pyReplaceZ m := by
  intro l m
  induction l with
  | nil => rfl
  | cons c cs ih =>
    by_cases hc : c = 'Z' <;> simp [pyReplaceZ, hc, ih]

/-- A basic ISO timestamp contains no `Z`. -/
theorem isoBasicValid_no_Z (r : List Char) (h : isoBasicValid r = true) :
    ∀ c ∈ r, c ≠ 'Z' :=
  matchesFormat_no_Z _ r h (by decide)

/-- A basic ISO timestamp has 19 characters. -/
theorem isoBasicValid_length (r : List Char) (h : isoBasicValid r = true) :
    r.length = 19 :=
  (matchesFormat_length _ r h).trans (by decide)

/-- A trailing-`Z` timestamp over a valid basic core parses to an
offset-AWARE value (the `Z` is first rewritten to `+00:00`). -/
theorem parseAddedAt_Z (r : List Char) (h : isoBasicValid r = true) :
    parseAddedAt (some (r ++ ['Z'])) = ⟨isoValue r, true⟩ := by
  show (if (!(r ++ ['Z']).isEmpty && (r ++ ['Z']).getLast? == some 'Z') = true then
          (fromisoformat (pyReplaceZ (r ++ ['Z']))).getD epochDT
        else if (!(r ++ ['Z']).isEmpty) = true then (fromisoformat (r ++ ['Z'])).getD epochDT
        else epochDT) = ⟨isoValue r, true⟩
  rw [if_pos (by simp [List.getLast?_concat, List.isEmpty_iff])]
  rw [pyReplaceZ_append, pyReplaceZ_no_Z r (isoBasicValid_no_Z r h)]
  rw [show pyReplaceZ ['Z'] = "+00:00".toList from rfl]
  have hlen : r.length = 19 := isoBasicValid_length r h
  have hvalid25 : ¬ isoBasicValid (r ++ "+00:00".toList) = true := by
    intro hx
    have hl := isoBasicValid_length _ hx
    rw [List.length_append, hlen] at hl
    simp at hl
  unfold fromisoformat
  rw [if_neg hvalid25]
  rw [List.take_left' hlen, List.drop_left' hlen]
  rw [if_pos (by simp [h])]
  rfl

/-- Comparing datetimes of different awareness raises `TypeError`. -/
theorem pyGt_mixed (a T : PyDateTime) (h : a.aware ≠ T.aware) :
    pyGt a T = .error "TypeError: cannot compare offset-naive and offset-aware datetimes" := by
  unfold pyGt
  rw [if_pos (bne_iff_ne.mpr h)]

/-- The date-threshold comprehension raises as soon as the sequence holds
a track whose awareness differs from the threshold's. -/
theorem dateFilterE_mixed : ∀ (tracks : List Track) (T : PyDateTime) (t : Track),
    t ∈ tracks → t.added_at.aware ≠ T.aware → ∃ e, dateFilterE tracks T = .error e := by
  intro tracks
  induction tracks with
  | nil => intro T t ht; simp at ht
  | cons u ts ih =>
    intro T t ht hmix
    rcases List.mem_cons.mp ht with rfl | hmem
    · have hstep : dateFilterE (t :: ts) T =
          .error "TypeError: cannot compare offset-naive and offset-aware datetimes" := by
        simp only [dateFilterE, pyGt_mixed t.added_at T hmix]
      exact ⟨_, hstep⟩
    · cases hgt : pyGt u.added_at T with
      | error e => exact ⟨e, by simp only [dateFilterE, hgt]⟩
      | ok b =>
        obtain ⟨e, he⟩ := ih T t hmem hmix
        exact ⟨e, by simp only [dateFilterE, hgt, he]⟩

/-! ## C9: naive epoch default versus aware parsed timestamps -/

/-- C9: the epoch default for missing `added_at` is offset-NAIVE, while a
trailing-`Z` timestamp parses to an offset-AWARE value; consequently a run
whose track sequence mixes awareness with the date threshold (in either
direction) raises the comparison `TypeError` and the whole run aborts with
an error before any track is processed, instead of filtering leniently. -/
theorem mixed_awareness_aborts_run :
    (parseAddedAt none).aware = false ∧
    (∀ r, isoBasicValid r = true → parseAddedAt (some (r ++ ['Z'])) = ⟨isoValue r, true⟩) ∧
    (∀ (search : List Char → Except String (Option (List Char)))
       (convert : List Char → List Char → Except String Unit)
       (tracks : List Track) (songTh : Option (List Char)) (T : PyDateTime) (t : Track),
       t ∈ tracks → t.added_at.aware ≠ T.aware →
       ∃ e, buildLibraryRun search convert tracks (some T) songTh = .error e) := by
  refine ⟨rfl, fun r h => parseAddedAt_Z r h, ?_⟩
  intro search convert tracks songTh T t ht hmix
  obtain ⟨e, he⟩ := dateFilterE_mixed tracks T t ht hmix
  have hfp : filterPhase tracks (some T) songTh = .error e := by
    show (match dateFilterE tracks T with
          | Except.error e => Except.error e
          | Except.ok ts1 =>
            match songTh with
            | some name => if name = [] then Except.ok ts1 else songFilterCore ts1 name
            | none => Except.ok ts1) = Except.error e
    rw [he]
  refine ⟨e, ?_⟩
  unfold buildLibraryRun
  rw [hfp]
  rfl

/-- C9 witness: a playlist mixing one epoch-defaulted (naive) track with
an aware threshold parsed from a trailing-`Z` timestamp. -/
theorem mixed_awareness_aborts_run_witness :
    (isoBasicValid "2025-07-02T17:55:19".toList = true ∧
      parseAddedAt (some ("2025-07-02T17:55:19".toList ++ ['Z'])) =
        ⟨isoValue "2025-07-02T17:55:19".toList, true⟩) ∧
    ((Track.mk "A".toList [] epochDT) ∈ [Track.mk "A".toList [] epochDT] ∧
      (Track.mk "A".toList [] epochDT).added_at.aware ≠
        (PyDateTime.mk 20250702175519 true).aware ∧
      ∃ e, buildLibraryRun (fun _ => Except.ok none) (fun _ _ => Except.ok ())
        [Track.mk "A".toList [] epochDT] (some (PyDateTime.mk 20250702175519 true)) none =
        .error e) :=
  ⟨⟨by decide, mixed_awareness_aborts_run.2.1 "2025-07-02T17:55:19".toList (by decide)⟩,
    ⟨by simp, by decide,
      mixed_awareness_aborts_run.2.2 (fun _ => Except.ok none) (fun _ _ => Except.ok ())
        [Track.mk "A".toList [] epochDT] none (PyDateTime.mk 20250702175519 true)
        (Track.mk "A".toList [] epochDT) (by simp) (by decide)⟩⟩

/-! ## C10: all-disallowed inputs and the bare-extension path -/

/-- C10 (counterexample): the claim says every input with NO character
from the allowed set slugifies to the EMPTY string, but `"日 本"` contains
no allowed character (a space is not in the set) and slugifies to `"-"`:
the internal space becomes a hyphen, which IS allowed. -/
theorem slugify_space_only_hyphen :
    (∀ c ∈ "日 本".toList, isAllowed c = false) ∧ slugify "日 本".toList = ['-'] :=
  ⟨by decide, by decide⟩

/-- C10 (amended): for any NON-EMPTY input string whose stripped form
contains no character from the allowed set and no space character (an
internal space would become an allowed hyphen), the sanitizer returns the
empty string, and the converter then allocates `directory/.mp3` — a bare
extension — when that path is free, rather than rejecting the empty base
name. -/
theorem empty_slug_allocates_bare_extension (s : List Char) (ex : Finset (List Char))
    (dir : List Char) (h : ∀ c ∈ pyStrip s, isAllowed c = false ∧ c ≠ ' ')
    (hne : s ≠ []) (hfree : dir ++ '/' :: ".mp3".toList ∉ ex) :
    slugify s = [] ∧ convertPath ex dir (some s) = dir ++ '/' :: ".mp3".toList := by
  have hslug := slugify_eq_nil s h
  refine ⟨hslug, ?_⟩
  have hbase : convertBase (some s) = [] := by
    show slugify (if s = [] then "track".toList else s) = []
    rw [if_neg hne]
    exact hslug
  unfold convertPath
  rw [hbase]
  have hc0 : candidate dir [] ".mp3".toList 0 = dir ++ '/' :: ".mp3".toList := by
    simp [candidate]
  obtain ⟨_, h2⟩ := uniquePath_spec ex dir [] ".mp3".toList
  rw [h2 0 (by rw [hc0]; exact hfree) (fun m hm => absurd hm (Nat.not_lt_zero m)), hc0]

/-- C10 witness: an all-CJK title in an empty session directory. -/
theorem empty_slug_allocates_bare_extension_witness :
    ((∀ c ∈ pyStrip "日本語".toList, isAllowed c = false ∧ c ≠ ' ') ∧
      "日本語".toList ≠ [] ∧
      "d".toList ++ '/' :: ".mp3".toList ∉ (∅ : Finset (List Char))) ∧
    convertPath ∅ "d".toList (some "日本語".toList) = "d".toList ++ '/' :: ".mp3".toList :=
  ⟨⟨by decide, by decide, by decide⟩,
    (empty_slug_allocates_bare_extension "日本語".toList ∅ "d".toList (by decide) (by decide)
      (by decide)).2⟩

end SpotifyLibraryBuilder
